import Mathlib

/-!
Verification of `release.py`, the platform release script.

The script is embedded shallowly:

* `Version` models `semver.Version` values (major/minor/patch numbers plus
  optional prerelease and build labels).
* `canonical_version` embeds the function of the same name.
* `update_chart_contents` / `update_openapi_contents` embed
  `Component._update_chart_contents` / `Component._update_openapi_contents`;
  a `TextIO` is modelled as the list of chunks `readline` yields (each chunk
  contains a newline only as its final character), and `readLines` recovers
  that chunk list from a whole-file string, so `update_chart_str` /
  `update_openapi_str` model one read-patch-write round trip of
  `_update_chart` / `_update_openapi`.
* The regular-expression matches `re.match(r'(version|appVersion):', line)`
  and `re.match(r'(\s+version):\s+\d+(\.\d+){2}', line)` are embedded as
  `chart_match` and `openapi_match`.  Both regexes are anchored prefix
  matches and, as their alternations/classes never overlap at a branch
  point, they are deterministic; the embeddings compute the same match and
  the same group 1.
* `COMPONENTS` and `components_from` embed the registry and the
  `--from-step` slicing, including Python's negative-index slice semantics
  (`pySliceFrom`).
* `releaseTrace` / `validateTrace` / `mainTrace` embed `Component.release`,
  `Component.validate` and `main` as the sequence of externally visible
  actions each run performs, threading the fail-fast `RuntimeError`
  semantics explicitly.
* `pushd` embeds the context manager of the same name over an explicit
  current-working-directory state with `Except`-style exceptions.
-/

/-- Model of a `semver.Version` value: three numeric parts plus optional
prerelease and build labels (the library stores these as strings or `None`). -/
structure Version where
  major : Nat
  minor : Nat
  patch : Nat
  prerelease : Option String := none
  build : Option String := none
deriving DecidableEq

/-- Python truthiness of an optional string (`None` and `""` are falsy),
as used by `if version.prerelease` and the f-string conditionals. -/
def truthy : Option String → Bool
  | none => false
  | some s => s ≠ ""

/-- The `"-" + version.prerelease if version.prerelease else ""` part of the
f-string in `canonical_version`. -/
def dashSuffix : Option String → String
  | none => ""
  | some p => if p = "" then "" else "-" ++ p

/-- The `+build` suffix used by `semver.Version.__str__`. -/
def plusSuffix : Option String → String
  | none => ""
  | some b => if b = "" then "" else "+" ++ b

/-- Embeds `canonical_version`:
`f'v{major}.{minor}.{patch}{"-" + prerelease if prerelease else ""}'`. -/
def canonical_version (version : Version) : String :=
  "v" ++ Nat.repr version.major ++ "." ++ Nat.repr version.minor ++ "." ++
    Nat.repr version.patch ++ dashSuffix version.prerelease

/-- Embeds `str(version)` for a `semver.Version`:
`{major}.{minor}.{patch}` then `-{prerelease}` if set, then `+{build}` if set. -/
def pyStr (version : Version) : String :=
  Nat.repr version.major ++ "." ++ Nat.repr version.minor ++ "." ++
    Nat.repr version.patch ++ dashSuffix version.prerelease ++
    plusSuffix version.build

/-- The whitespace class `\s` of the regexes (ASCII whitespace). -/
def isWS (c : Char) : Bool :=
  c = ' ' || c = '\t' || c = '\n' || c = '\r' || c = '\x0b' || c = '\x0c'

/-- The digit class `\d` of the regexes. -/
def isDigitC (c : Char) : Bool :=
  '0' ≤ c && c ≤ '9'

/-- Consume a literal pattern from the front of a character list, returning
the remainder; `none` when the literal is not a prefix.  This is how the
embedded regex matchers consume fixed text such as `version:`. -/
def stripPre : List Char → List Char → Option (List Char)
  | [], rest => some rest
  | _ :: _, [] => none
  | p :: ps, c :: cs => if p = c then stripPre ps cs else none

/-- Embeds `re.match(r'(version|appVersion):', line)`: the line must start
with `version:` or `appVersion:`; returns group 1 (the matched key).  The
first alternative is tried first, exactly as `re` does; the alternatives
cannot both match the same line. -/
def chart_match (line : List Char) : Option String :=
  if (stripPre "version:".data line).isSome then some "version"
  else if (stripPre "appVersion:".data line).isSome then some "appVersion"
  else none

/-- The `\s+\d+(\.\d+){2}` tail of the OpenAPI regex, checked on the text
after `version:`: some whitespace, then three dot-separated digit runs
(anything after the third run is not inspected — the regex has no anchor). -/
def openapiValueNumeric (r2 : List Char) : Bool :=
  if r2.takeWhile isWS = [] then false else
  let r3 := r2.dropWhile isWS
  if r3.takeWhile isDigitC = [] then false else
  let r4 := r3.dropWhile isDigitC
  if r4.head? = some '.' then
    let r5 := r4.tail
    if r5.takeWhile isDigitC = [] then false else
    let r6 := r5.dropWhile isDigitC
    if r6.head? = some '.' then !(r6.tail.takeWhile isDigitC = [])
    else false
  else false

/-- Embeds `re.match(r'(\s+version):\s+\d+(\.\d+){2}', line)`, returning
group 1 (leading whitespace plus `version`).  Each greedy quantifier in the
pattern is followed by a character it can never match (`\s+` by `v` or a
digit, `\d+` by `.`), so the regex engine's backtracking search is
equivalent to this deterministic longest-run scan.  The match is a prefix
match: trailing text after the third numeric component is not inspected. -/
def openapi_match (line : List Char) : Option (List Char) :=
  let ws := line.takeWhile isWS
  if ws = [] then none else
  match stripPre "version:".data (line.dropWhile isWS) with
  | none => none
  | some r2 => if openapiValueNumeric r2 then some (ws ++ "version".data) else none

/-- The body of the `while` loop of `Component._update_chart_contents`: a
matched line is replaced by `f'{m.group(1)}: {canonical_version(version)}\n'`,
any other line is kept as is. -/
def patchChartLine (version : Version) (line : String) : String :=
  match chart_match line.data with
  | some key => key ++ ": " ++ canonical_version version ++ "\n"
  | none => line

/-- The body of the `while` loop of `Component._update_openapi_contents`: a
matched line is replaced by `f'{m.group(1)}: {str(version)}\n'`. -/
def patchOpenapiLine (version : Version) (line : String) : String :=
  match openapi_match line.data with
  | some g1 => String.mk g1 ++ ": " ++ pyStr version ++ "\n"
  | none => line

/-- `''.join(lines)`. -/
def joinList : List String → String
  | [] => ""
  | s :: rest => s ++ joinList rest

/-- Embeds `Component._update_chart_contents`: the `readline` loop collects
one transformed line per input line, then joins them. -/
def update_chart_contents (lines : List String) (version : Version) : String :=
  joinList (lines.map (patchChartLine version))

/-- Embeds `Component._update_openapi_contents`. -/
def update_openapi_contents (lines : List String) (version : Version) : String :=
  joinList (lines.map (patchOpenapiLine version))

/-- Splits a file's character stream into the chunks `file.readline` yields:
each `'\n'` terminates a chunk (and is kept), a final fragment without a
newline is yielded as is, and the empty string signals end of file (so the
loop in the patchers sees exactly these chunks). -/
def splitLinesAux : List Char → List Char → List String
  | [], acc => if acc = [] then [] else [String.mk acc.reverse]
  | c :: cs, acc =>
    if c = '\n' then String.mk (acc.reverse ++ ['\n']) :: splitLinesAux cs []
    else splitLinesAux cs (c :: acc)

/-- The list of `readline` results for a whole-file string. -/
def readLines (s : String) : List String :=
  splitLinesAux s.data []

/-- One read-patch round trip of `_update_chart` on a file holding `s`
(the patched contents that get written back). -/
def update_chart_str (s : String) (version : Version) : String :=
  update_chart_contents (readLines s) version

/-- One read-patch round trip of `_update_openapi`. -/
def update_openapi_str (s : String) (version : Version) : String :=
  update_openapi_contents (readLines s) version

/-- The externally visible effects a release run performs, in the order the
script issues them: file patches, `go` invocations, `make validate`, the
`npm run` calls of the UI precommit hook, the git/gh commands of the commit
and tag phases, and the blocking `input()` of the human gate. -/
inductive ToolAction where
  | patchChart
  | goGet (module : String)
  | goModTidy
  | patchOpenAPI
  | makeValidate
  | npmRun (script : String)
  | gitCheckoutB (branch : String)
  | gitAdd
  | gitCommit (title : String)
  | gitPushBranch (branch : String)
  | prCreate (branch : String) (title : String)
  | awaitInput
  | gitCheckoutMain
  | gitPull
  | gitTag (tag : String)
  | gitPushTag (tag : String)
  | gitBranchDelete (branch : String)
deriving DecidableEq

/-- Embeds the `Component` class: a name, dependency names, and an optional
precommit hook. The only hook in the script, `ui_npm_update`, just runs a
fixed list of commands, so a hook is modelled as the action list it performs. -/
structure Component where
  name : String
  dependencies : List String := []
  precommit_hook : Option (List ToolAction) := none
deriving DecidableEq

/-- Embeds `ui_npm_update`: the four `npm run openapi:*` invocations. -/
def ui_npm_update : List ToolAction :=
  [ToolAction.npmRun "openapi:identity", ToolAction.npmRun "openapi:region",
   ToolAction.npmRun "openapi:compute", ToolAction.npmRun "openapi:kubernetes"]

/-- Embeds the `COMPONENTS` registry literal. -/
def COMPONENTS : List Component :=
  [ { name := "core" },
    { name := "identity", dependencies := ["core"] },
    { name := "region", dependencies := ["core", "identity"] },
    { name := "compute", dependencies := ["core", "identity", "region"] },
    { name := "kubernetes", dependencies := ["core", "identity", "region"] },
    { name := "ui", precommit_hook := some ui_npm_update } ]

/-- Python list slicing `l[i:]` for a possibly negative start index: a
negative `i` counts from the end and is clamped to the start of the list. -/
def pySliceFrom (l : List Component) (i : Int) : List Component :=
  if 0 ≤ i then l.drop i.toNat else l.drop (l.length - (-i).toNat)

/-- Embeds `components_from`: `None` returns the whole registry; otherwise
`index = next((i for i, c in enumerate(COMPONENTS) if c.name == step), -1)`
and the result is `COMPONENTS[index:]` with Python slice semantics. -/
def components_from (step : Option String) : List Component :=
  match step with
  | none => COMPONENTS
  | some s =>
    let index : Int :=
      match COMPONENTS.findIdx? (fun c => c.name = s) with
      | some i => (i : Int)
      | none => -1
    pySliceFrom COMPONENTS index

/-- The `RuntimeError`s the script can raise, with their message text. -/
inductive Err where
  | runtime (msg : String)
deriving DecidableEq

/-- The file-system facts `Component.release` observes: how many files each
of its two `glob.glob` calls matches. -/
structure ReleaseEnv where
  chartMatches : Nat
  openapiMatches : Nat
deriving DecidableEq

/-- The fixed git/gh action sequence at the end of `Component.release`
(branch `bump`, title `Version {tag}`): checkout -b, add, commit, push,
pr create, the blocking `input()`, checkout main, pull, tag, push tag,
branch -D. -/
def commitPhase (version : Version) : List ToolAction :=
  let branch := "bump"
  let tag := canonical_version version
  let title := "Version " ++ tag
  [ToolAction.gitCheckoutB branch, ToolAction.gitAdd, ToolAction.gitCommit title,
   ToolAction.gitPushBranch branch, ToolAction.prCreate branch title,
   ToolAction.awaitInput, ToolAction.gitCheckoutMain, ToolAction.gitPull,
   ToolAction.gitTag tag, ToolAction.gitPushTag tag, ToolAction.gitBranchDelete branch]

/-- Embeds `Component.release` as the list of actions performed before the
run either finishes the component (`none`) or raises (`some err`), in
program order: the chart glob check, the chart patch, the dependency bumps,
the conditional OpenAPI/precommit phase, then the commit/tag phase. -/
def releaseTrace (c : Component) (version : Version) (env : ReleaseEnv) :
    List ToolAction × Option Err :=
  if env.chartMatches ≠ 1 then
    ([], some (Err.runtime ("failed to find Chart.yaml for component " ++ c.name)))
  else
    let depActs :=
      if c.dependencies.isEmpty then []
      else
        c.dependencies.map (fun d =>
          ToolAction.goGet ("github.com/unikorn-cloud/" ++ d ++ "@" ++
            canonical_version version)) ++ [ToolAction.goModTidy]
    let pre := ToolAction.patchChart :: depActs
    if truthy version.prerelease then
      (pre ++ commitPhase version, none)
    else
      if env.openapiMatches > 1 then
        (pre, some (Err.runtime
          ("expected to find 0 or 1 OpenAPI spec.yaml for component " ++ c.name)))
      else
        let oa :=
          (if env.openapiMatches = 1 then [ToolAction.patchOpenAPI, ToolAction.makeValidate]
           else []) ++
          (match c.precommit_hook with
           | some acts => acts
           | none => [])
        (pre ++ oa ++ commitPhase version, none)

/-- A stage event of a run: either a component's `validate()` beginning, or
a release-phase action of a component. -/
inductive Event where
  | validate (comp : String)
  | release (comp : String) (a : ToolAction)
deriving DecidableEq

/-- The component a trace event belongs to. -/
def Event.comp : Event → String
  | Event.validate c => c
  | Event.release c _ => c

/-- Embeds the first loop of `main` (`for component in components:
component.validate()`): `branchOf` is the output of
`git branch --show-current` in each component's checkout; a branch other
than `main` raises immediately, aborting the rest of the loop. -/
def validateTrace (branchOf : String → String) : List Component → List Event × Option Err
  | [] => ([], none)
  | c :: rest =>
    if branchOf c.name = "main" then
      let r := validateTrace branchOf rest
      (Event.validate c.name :: r.1, r.2)
    else
      ([Event.validate c.name],
       some (Err.runtime ("component " ++ c.name ++ " is not checked out to main")))

/-- Embeds the second loop of `main` (`for component in components:
component.release(version)`): each component's release runs to completion
before the next begins; a raise aborts the rest of the loop. -/
def releasesTrace (version : Version) (envOf : String → ReleaseEnv) :
    List Component → List Event × Option Err
  | [] => ([], none)
  | c :: rest =>
    let r := releaseTrace c version (envOf c.name)
    let evs := r.1.map (Event.release c.name)
    match r.2 with
    | some e => (evs, some e)
    | none =>
      let r2 := releasesTrace version envOf rest
      (evs ++ r2.1, r2.2)

/-- Embeds `main`'s stage sequencing over an already-selected component
list: the validation loop runs first; only if it completes does the release
loop run. -/
def mainTrace (cs : List Component) (version : Version)
    (branchOf : String → String) (envOf : String → ReleaseEnv) :
    List Event × Option Err :=
  match validateTrace branchOf cs with
  | (evs, some e) => (evs, some e)
  | (evs, none) =>
    let r := releasesTrace version envOf cs
    (evs ++ r.1, r.2)

/-- `true` iff a list of naturals never decreases. -/
def nonDecreasing : List Nat → Bool
  | [] => true
  | [_] => true
  | a :: b :: t => if a ≤ b then nonDecreasing (b :: t) else false

/-- `true` iff the trace is grouped by component in registry order: the
registry index of the component owning each event never decreases along the
trace.  This is exactly "no stage of a later component begins before every
stage of the previous component has completed". -/
def groupedByOrder (order : List String) (evs : List Event) : Bool :=
  nonDecreasing (evs.map (fun e => order.findIdx (fun n => n == e.comp)))

/-- Embeds the `pushd` context manager over an explicit current-working-
directory state: a computation is a function from the cwd it runs in to a
normal-or-raised result (`yield` outcome) plus the cwd it leaves behind.
`prev = os.getcwd()`; `os.chdir(directory)`; run the body; the `finally:`
block restores `os.chdir(prev)` on both outcomes. -/
def pushd {α : Type} (directory : String)
    (body : String → Except Err α × String) :
    String → Except Err α × String :=
  fun cwd =>
    let prev := cwd
    let r := body directory
    (r.1, prev)

/-- Embeds `SemverNormalizeAction.__call__`: `if values[0] == 'v': values =
values[1:]`.  Indexing an empty string raises in Python, hence `none` there. -/
def pyStripV (s : String) : Option String :=
  match s.data with
  | [] => none
  | c :: cs => some (if c = 'v' then String.mk cs else s)

/-- Split a character list at the first occurrence of `ch`: the part before
it, and (when present) the part after it. -/
def splitFirst (ch : Char) : List Char → List Char × Option (List Char)
  | [] => ([], none)
  | c :: cs =>
    if c = ch then ([], some cs)
    else
      let r := splitFirst ch cs
      (c :: r.1, r.2)

/-- Split a character list on every occurrence of `ch`. -/
def splitOnChar (ch : Char) : List Char → List (List Char)
  | [] => [[]]
  | c :: cs =>
    let r := splitOnChar ch cs
    if c = ch then [] :: r
    else
      match r with
      | h :: t => (c :: h) :: t
      | [] => [[c]]

/-- A numeric version component: nonempty, all digits, no leading zero. -/
def parseNumId (l : List Char) : Option Nat :=
  if l ≠ [] && l.all isDigitC && (l.length = 1 || l.head? ≠ some '0') then
    some (l.foldl (fun n c => n * 10 + (c.toNat - 48)) 0)
  else none

/-- A character allowed in prerelease/build identifiers: `[0-9A-Za-z-]`. -/
def isIdentChar (c : Char) : Bool :=
  isDigitC c || ('a' ≤ c && c ≤ 'z') || ('A' ≤ c && c ≤ 'Z') || c = '-'

/-- A dot-separated prerelease/build label: every identifier nonempty and
over the allowed alphabet, and (for prerelease) numeric identifiers carry
no leading zero. -/
def validLabel (strict : Bool) (l : List Char) : Bool :=
  (splitOnChar '.' l).all fun id =>
    id ≠ [] && id.all isIdentChar &&
      (!strict || !id.all isDigitC || id.length = 1 || id.head? ≠ some '0')

/-- Modelled from the spec: `semver.Version.parse` is third-party library
code not present in this repository.  Per §4.1 it accepts
`major.minor.patch` with optional `-prerelease` and `+build` metadata and
fails on anything else.  The grammar used here is the semantic-versioning
one: three numeric components without leading zeros, then an optional
prerelease label (after the first `-`), then an optional build label (after
the first `+`). -/
def parseSemver (s : String) : Option Version :=
  let b := splitFirst '+' s.data
  let p := splitFirst '-' b.1
  match splitOnChar '.' p.1 with
  | [a1, a2, a3] =>
    match parseNumId a1, parseNumId a2, parseNumId a3 with
    | some major, some minor, some patch =>
      let preOk := match p.2 with
        | none => true
        | some pre => validLabel true pre
      let buildOk := match b.2 with
        | none => true
        | some bu => validLabel false bu
      if preOk && buildOk then
        some { major := major, minor := minor, patch := patch,
               prerelease := p.2.map (fun l => String.mk l),
               build := b.2.map (fun l => String.mk l) }
      else none
    | _, _, _ => none
  | _ => none

def nlFreeChars : List Char → Bool
  | [] => true
  | c :: cs => if c = '\n' then false else nlFreeChars cs

def versionLabelsNLFree (version : Version) : Bool :=
  (match version.prerelease with
   | none => true
   | some p => nlFreeChars p.data) &&
  (match version.build with
   | none => true
   | some b => nlFreeChars b.data)
/-- A `readline` chunk that ends with the newline terminator. -/
def EndsNL (s : String) : Prop :=
  ∃ t, s.data = t ++ ['\n'] ∧ '\n' ∉ t

/-- A nonempty final `readline` chunk with no newline at all. -/
def LastChunk (s : String) : Prop :=
  s.data ≠ [] ∧ '\n' ∉ s.data

/-- The invariant of a `readline` chunk list: every chunk but the last ends
with (and only there contains) a newline; the last chunk is nonempty and
holds a newline at most as its final character. -/
def Chunks : List String → Prop
  | [] => True
  | s :: rest => (EndsNL s ∨ (rest = [] ∧ LastChunk s)) ∧ Chunks rest

/-- A fixed full release version, used as concrete input. -/
def v100 : Version := ⟨1, 0, 0, none, none⟩

/-- A fixed release-candidate version, used as concrete input. -/
def v110rc1 : Version := ⟨1, 1, 0, some "rc1", none⟩

/-- Every checkout reports branch `main`. -/
def allMain : String → String := fun _ => "main"

/-- Every component has exactly one chart file and one OpenAPI document. -/
def envAll : String → ReleaseEnv := fun _ => ⟨1, 1⟩

/-! ## Helper lemmas -/

theorem stripPre_append (p rest : List Char) : stripPre p (p ++ rest) = some rest := by
  induction p with
  | nil => rfl
  | cons c cs ih => simp [stripPre, ih]

theorem pyStripV_v (s : String) : pyStripV ("v" ++ s) = some s := by
  have h : ("v" ++ s).data = 'v' :: s.data := by
    rw [String.data_append]; rfl
  simp [pyStripV, h]

theorem chart_match_version (rest : String) :
    chart_match (("version:" ++ rest) : String).data = some "version" := by
  have h : (("version:" ++ rest) : String).data = "version:".data ++ rest.data :=
    String.data_append ..
  simp [chart_match, h, stripPre]

theorem chart_match_appversion (rest : String) :
    chart_match (("appVersion:" ++ rest) : String).data = some "appVersion" := by
  have h : (("appVersion:" ++ rest) : String).data = "appVersion:".data ++ rest.data :=
    String.data_append ..
  simp [chart_match, h, stripPre]

theorem validateTrace_all_main (br : String → String) (cs : List Component)
    (h : ∀ c ∈ cs, br c.name = "main") :
    validateTrace br cs = (cs.map fun c => Event.validate c.name, none) := by
  induction cs with
  | nil => rfl
  | cons c rest ih =>
    have hc : br c.name = "main" := h c (by simp)
    have hr : ∀ x ∈ rest, br x.name = "main" := fun x hx => h x (by simp [hx])
    simp [validateTrace, hc, ih hr]

theorem nlFreeChars_iff (l : List Char) : nlFreeChars l = true ↔ '\n' ∉ l := by
  induction l with
  | nil => simp [nlFreeChars]
  | cons c cs ih =>
    by_cases h : c = '\n'
    · subst h; simp [nlFreeChars]
    · simp [nlFreeChars, h, ih, List.mem_cons, Ne.symm h]

theorem digitChar_digit (k : Nat) (h : k < 10) : isDigitC (Nat.digitChar k) = true := by
  interval_cases k <;> decide

theorem digit_not_ws (c : Char) (h : isDigitC c = true) : isWS c = false := by
  by_contra hw
  rw [Bool.not_eq_false] at hw
  simp only [isWS, Bool.or_eq_true, decide_eq_true_eq] at hw
  rcases hw with ((((h1 | h1) | h1) | h1) | h1) | h1 <;> subst h1 <;> revert h <;> decide

theorem digit_not_nl (c : Char) (h : isDigitC c = true) : c ≠ '\n' := by
  intro hc; rw [hc] at h; revert h; decide

theorem toDigitsCore_digits (fuel : Nat) : ∀ (n : Nat) (acc : List Char),
    (∀ c ∈ acc, isDigitC c = true) →
    ∀ c ∈ Nat.toDigitsCore 10 fuel n acc, isDigitC c = true := by
  induction fuel with
  | zero =>
    intro n acc hacc c hc
    simp only [Nat.toDigitsCore] at hc
    exact hacc c hc
  | succ fuel ih =>
    intro n acc hacc c hc
    have hd : ∀ x ∈ ((n % 10).digitChar :: acc), isDigitC x = true := by
      intro x hx
      rcases List.mem_cons.mp hx with hx | hx
      · rw [hx]; exact digitChar_digit _ (Nat.mod_lt _ (by norm_num))
      · exact hacc x hx
    simp only [Nat.toDigitsCore] at hc
    by_cases h : n / 10 = 0
    · rw [if_pos h] at hc
      exact hd c hc
    · rw [if_neg h] at hc
      exact ih (n / 10) _ hd c hc

theorem toDigitsCore_length (fuel : Nat) : ∀ (n : Nat) (acc : List Char),
    acc.length < (Nat.toDigitsCore 10 (fuel + 1) n acc).length := by
  induction fuel with
  | zero =>
    intro n acc
    simp only [Nat.toDigitsCore]
    by_cases h : n / 10 = 0
    · rw [if_pos h]; simp
    · rw [if_neg h]; simp [Nat.toDigitsCore]
  | succ fuel ih =>
    intro n acc
    simp only [Nat.toDigitsCore]
    by_cases h : n / 10 = 0
    · rw [if_pos h]; simp
    · rw [if_neg h]
      calc acc.length < ((n % 10).digitChar :: acc).length := by simp
        _ < _ := ih (n / 10) _

theorem natRepr_digits (n : Nat) : ∀ c ∈ (Nat.repr n).data, isDigitC c = true := by
  intro c hc
  have h : (Nat.repr n).data = Nat.toDigitsCore 10 (n + 1) n [] := rfl
  rw [h] at hc
  exact toDigitsCore_digits (n + 1) n [] (by simp) c hc

theorem natRepr_ne_nil (n : Nat) : (Nat.repr n).data ≠ [] := by
  have h : (Nat.repr n).data = Nat.toDigitsCore 10 (n + 1) n [] := rfl
  rw [h]
  intro he
  have hl := toDigitsCore_length n n []
  rw [he] at hl
  simp at hl

theorem takeWhile_app_not (p : Char → Bool) (a : List Char) (b : Char) (t : List Char)
    (ha : ∀ c ∈ a, p c = true) (hb : p b = false) :
    (a ++ b :: t).takeWhile p = a := by
  induction a with
  | nil => simp [List.takeWhile, hb]
  | cons x xs ih =>
    have hx : p x = true := ha x (by simp)
    simp only [List.cons_append, List.takeWhile, hx, List.append_eq]
    rw [ih (fun c hc => ha c (by simp [hc]))]

theorem dropWhile_app_not (p : Char → Bool) (a : List Char) (b : Char) (t : List Char)
    (ha : ∀ c ∈ a, p c = true) (hb : p b = false) :
    (a ++ b :: t).dropWhile p = b :: t := by
  induction a with
  | nil => simp [List.dropWhile, hb]
  | cons x xs ih =>
    have hx : p x = true := ha x (by simp)
    simp only [List.cons_append, List.dropWhile, hx, List.append_eq]
    exact ih (fun c hc => ha c (by simp [hc]))

theorem splitLinesAux_line (cs : List Char) : ∀ (t acc : List Char), '\n' ∉ t →
    splitLinesAux (t ++ '\n' :: cs) acc =
      String.mk (acc.reverse ++ t ++ ['\n']) :: splitLinesAux cs [] := by
  intro t
  induction t with
  | nil => intro acc h; simp [splitLinesAux]
  | cons c ts ih =>
    intro acc h
    have hc : ¬ c = '\n' := fun hh => h (by simp [hh])
    have ht : '\n' ∉ ts := fun hh => h (by simp [hh])
    simp only [List.cons_append, splitLinesAux, if_neg hc, List.append_eq]
    rw [ih (c :: acc) ht]
    simp

theorem splitLinesAux_last (t : List Char) : ∀ (acc : List Char), '\n' ∉ t →
    splitLinesAux t acc =
      if acc = [] ∧ t = [] then [] else [String.mk (acc.reverse ++ t)] := by
  induction t with
  | nil =>
    intro acc h
    by_cases ha : acc = [] <;> simp [splitLinesAux, ha]
  | cons c ts ih =>
    intro acc h
    have hc : ¬ c = '\n' := fun hh => h (by simp [hh])
    have ht : '\n' ∉ ts := fun hh => h (by simp [hh])
    simp only [splitLinesAux, if_neg hc]
    rw [ih (c :: acc) ht]
    simp

theorem splitLinesAux_chunks (cs : List Char) : ∀ (acc : List Char), '\n' ∉ acc →
    Chunks (splitLinesAux cs acc) := by
  induction cs with
  | nil =>
    intro acc h
    by_cases ha : acc = []
    · simp [splitLinesAux, ha, Chunks]
    · simp only [splitLinesAux, if_neg ha]
      refine ⟨Or.inr ⟨rfl, ?_, ?_⟩, trivial⟩
      · simp [ha]
      · simp [List.mem_reverse]; exact fun hh => h hh
  | cons c ct ih =>
    intro acc h
    by_cases hc : c = '\n'
    · subst hc
      simp only [splitLinesAux, if_pos rfl]
      refine ⟨Or.inl ⟨acc.reverse, rfl, ?_⟩, ih [] (by simp)⟩
      simp [List.mem_reverse]; exact fun hh => h hh
    · simp only [splitLinesAux, if_neg hc]
      exact ih (c :: acc) (by simp [List.mem_cons]; exact ⟨fun hh => hc hh.symm, fun hh => h hh⟩)

theorem joinList_readLines (L : List String) (h : Chunks L) :
    readLines (joinList L) = L := by
  induction L with
  | nil => rfl
  | cons s rest ih =>
    have hdata : (joinList (s :: rest)).data = s.data ++ (joinList rest).data := by
      simp [joinList, String.data_append]
    rcases h with ⟨hs | ⟨hrest, hne, hnl⟩, hr⟩
    · rcases hs with ⟨t, ht, hnl⟩
      unfold readLines
      rw [hdata, ht, List.append_assoc, List.singleton_append]
      rw [splitLinesAux_line _ t [] hnl]
      simp only [List.reverse_nil, List.nil_append]
      have ih2 : splitLinesAux (joinList rest).data [] = rest := ih hr
      rw [ih2]
      have hs2 : String.mk (t ++ ['\n']) = s := by
        rw [← ht]
      rw [hs2]
    · subst hrest
      unfold readLines
      rw [hdata]
      simp only [joinList, List.append_nil]
      rw [splitLinesAux_last s.data [] hnl]
      simp only [List.reverse_nil, List.nil_append]
      rw [if_neg (by simp [hne])]

theorem chunks_map (f : String → String) :
    ∀ (L : List String), Chunks L →
    (∀ s, EndsNL s ∨ LastChunk s → f s = s ∨ EndsNL (f s)) →
    Chunks (L.map f) := by
  intro L
  induction L with
  | nil => intro _ _; trivial
  | cons s rest ih =>
    intro h hf
    rcases h with ⟨hhead, hrest⟩
    refine ⟨?_, ih hrest hf⟩
    have hcp : EndsNL s ∨ LastChunk s := by
      rcases hhead with h1 | ⟨_, h2⟩
      · exact Or.inl h1
      · exact Or.inr h2
    rcases hf s hcp with heq | hends
    · rw [heq]
      rcases hhead with h1 | ⟨hr0, h2⟩
      · exact Or.inl h1
      · exact Or.inr ⟨by simp [hr0], h2⟩
    · exact Or.inl hends

theorem natRepr_no_nl (n : Nat) : '\n' ∉ (Nat.repr n).data :=
  fun hm => digit_not_nl _ (natRepr_digits n _ hm) rfl

theorem dashSuffix_nlfree (o : Option String)
    (h : (match o with | none => true | some p => nlFreeChars p.data) = true) :
    '\n' ∉ (dashSuffix o).data := by
  cases o with
  | none => simp [dashSuffix]
  | some p =>
    by_cases hp : p = ""
    · simp [dashSuffix, hp]
    · simp only [dashSuffix, if_neg hp]
      rw [String.data_append]
      simp only [List.mem_append, not_or]
      exact ⟨by decide, (nlFreeChars_iff p.data).mp h⟩

theorem plusSuffix_nlfree (o : Option String)
    (h : (match o with | none => true | some b => nlFreeChars b.data) = true) :
    '\n' ∉ (plusSuffix o).data := by
  cases o with
  | none => simp [plusSuffix]
  | some b =>
    by_cases hb : b = ""
    · simp [plusSuffix, hb]
    · simp only [plusSuffix, if_neg hb]
      rw [String.data_append]
      simp only [List.mem_append, not_or]
      exact ⟨by decide, (nlFreeChars_iff b.data).mp h⟩

theorem canonical_nlfree (version : Version) (h : versionLabelsNLFree version = true) :
    '\n' ∉ (canonical_version version).data := by
  have hpre := (Bool.and_eq_true _ _).mp h |>.1
  simp only [canonical_version, String.data_append, List.mem_append, not_or]
  refine ⟨⟨⟨⟨⟨⟨by decide, natRepr_no_nl _⟩, by decide⟩, natRepr_no_nl _⟩, by decide⟩,
    natRepr_no_nl _⟩, dashSuffix_nlfree _ hpre⟩

theorem pyStr_nlfree (version : Version) (h : versionLabelsNLFree version = true) :
    '\n' ∉ (pyStr version).data := by
  have hpre := (Bool.and_eq_true _ _).mp h |>.1
  have hbuild := (Bool.and_eq_true _ _).mp h |>.2
  simp only [pyStr, String.data_append, List.mem_append, not_or]
  refine ⟨⟨⟨⟨⟨⟨natRepr_no_nl _, by decide⟩, natRepr_no_nl _⟩, by decide⟩,
    natRepr_no_nl _⟩, dashSuffix_nlfree _ hpre⟩, plusSuffix_nlfree _ hbuild⟩

theorem chart_match_some_key (l : List Char) (k : String) (h : chart_match l = some k) :
    k = "version" ∨ k = "appVersion" := by
  unfold chart_match at h
  split_ifs at h
  · exact Or.inl (Option.some_inj.mp h).symm
  · exact Or.inr (Option.some_inj.mp h).symm

theorem chart_match_patched (version : Version) (k : String)
    (hk : k = "version" ∨ k = "appVersion") :
    chart_match (k ++ ": " ++ canonical_version version ++ "\n").data = some k := by
  rcases hk with h | h <;> subst h
  · have he : ("version" : String) ++ ": " ++ canonical_version version ++ "\n"
        = "version:" ++ (" " ++ canonical_version version ++ "\n") := rfl
    rw [he]
    exact chart_match_version _
  · have he : ("appVersion" : String) ++ ": " ++ canonical_version version ++ "\n"
        = "appVersion:" ++ (" " ++ canonical_version version ++ "\n") := rfl
    rw [he]
    exact chart_match_appversion _

theorem patchChartLine_idem (version : Version) (l : String) :
    patchChartLine version (patchChartLine version l) = patchChartLine version l := by
  cases hm : chart_match l.data with
  | none => simp [patchChartLine, hm]
  | some k =>
    have hk := chart_match_some_key l.data k hm
    simp only [patchChartLine, hm]
    rw [chart_match_patched version k hk]

theorem patchChartLine_chunkprop (version : Version) (h : versionLabelsNLFree version = true)
    (s : String) :
    patchChartLine version s = s ∨ EndsNL (patchChartLine version s) := by
  cases hm : chart_match s.data with
  | none => left; simp [patchChartLine, hm]
  | some k =>
    right
    simp only [patchChartLine, hm]
    refine ⟨(k ++ ": " ++ canonical_version version).data, ?_, ?_⟩
    · rw [String.data_append]
    · have hk := chart_match_some_key s.data k hm
      have hc := canonical_nlfree version h
      rw [String.data_append, String.data_append]
      simp only [List.mem_append, not_or]
      rcases hk with h1 | h1 <;> subst h1 <;> exact ⟨⟨by decide, by decide⟩, hc⟩

theorem join_map_idem (f : String → String)
    (hidem : ∀ l, f (f l) = f l)
    (hchunk : ∀ s, EndsNL s ∨ LastChunk s → f s = s ∨ EndsNL (f s))
    (s : String) :
    joinList (List.map f (readLines (joinList (List.map f (readLines s))))) =
      joinList (List.map f (readLines s)) := by
  have c1 : Chunks (readLines s) := splitLinesAux_chunks s.data [] (by simp)
  have c2 : Chunks (List.map f (readLines s)) := chunks_map f _ c1 hchunk
  rw [joinList_readLines _ c2]
  rw [List.map_map]
  congr 1
  apply List.map_congr_left
  intro a _
  exact hidem a

theorem openapi_match_some (l : List Char) (g1 : List Char) (h : openapi_match l = some g1) :
    g1 = l.takeWhile isWS ++ "version".data ∧ l.takeWhile isWS ≠ [] ∧
      ∃ r2, stripPre "version:".data (l.dropWhile isWS) = some r2 := by
  simp only [openapi_match] at h
  by_cases hws : l.takeWhile isWS = []
  · rw [if_pos hws] at h; simp at h
  · rw [if_neg hws] at h
    cases hsp : stripPre "version:".data (l.dropWhile isWS) with
    | none => rw [hsp] at h; simp at h
    | some r2 =>
      simp only [hsp] at h
      by_cases hv : openapiValueNumeric r2 = true
      · rw [if_pos hv] at h
        exact ⟨(Option.some_inj.mp h).symm, hws, r2, rfl⟩
      · rw [if_neg hv] at h; simp at h

theorem openapi_ws_nlfree (l : List Char)
    (hl : (∃ t, l = t ++ ['\n'] ∧ '\n' ∉ t) ∨ '\n' ∉ l)
    (hmatch : ∃ r2, stripPre "version:".data (l.dropWhile isWS) = some r2) :
    '\n' ∉ l.takeWhile isWS := by
  rcases hl with ⟨t, hteq, htnl⟩ | hnl
  · rcases hmatch with ⟨r2, hr2⟩
    cases hdw : l.dropWhile isWS with
    | nil => rw [hdw] at hr2; simp [stripPre] at hr2
    | cons d ds =>
      have hsplit : l.takeWhile isWS ++ d :: ds = t ++ ['\n'] := by
        rw [← hdw, List.takeWhile_append_dropWhile, hteq]
      have hlen : (l.takeWhile isWS).length ≤ t.length := by
        have hc := congrArg List.length hsplit
        simp at hc; omega
      have htake : l.takeWhile isWS = t.take (l.takeWhile isWS).length := by
        have h1 : l.takeWhile isWS
            = (l.takeWhile isWS ++ d :: ds).take (l.takeWhile isWS).length :=
          (List.take_left _ _).symm
        rw [hsplit, List.take_append_eq_append_take,
          Nat.sub_eq_zero_of_le hlen] at h1
        simpa using h1
      rw [htake]
      intro hmem
      exact htnl (List.take_subset _ _ hmem)
  · have hsplit := List.takeWhile_append_dropWhile isWS l
    exact fun hmem => hnl (hsplit ▸ List.mem_append.mpr (Or.inl hmem))

theorem openapiValueNumeric_triple (M N P ws2 rest : List Char)
    (hM : M ≠ []) (hMd : ∀ c ∈ M, isDigitC c = true)
    (hN : N ≠ []) (hNd : ∀ c ∈ N, isDigitC c = true)
    (hP : P ≠ []) (hPd : ∀ c ∈ P, isDigitC c = true)
    (hws2 : ws2 ≠ []) (hws2w : ∀ c ∈ ws2, isWS c = true) :
    openapiValueNumeric (ws2 ++ (M ++ '.' :: (N ++ '.' :: (P ++ rest)))) = true := by
  obtain ⟨m0, ms, rfl⟩ : ∃ a b, M = a :: b := by
    cases M with
    | nil => exact absurd rfl hM
    | cons a b => exact ⟨a, b, rfl⟩
  obtain ⟨n0, ns, rfl⟩ : ∃ a b, N = a :: b := by
    cases N with
    | nil => exact absurd rfl hN
    | cons a b => exact ⟨a, b, rfl⟩
  obtain ⟨p0, ps, rfl⟩ : ∃ a b, P = a :: b := by
    cases P with
    | nil => exact absurd rfl hP
    | cons a b => exact ⟨a, b, rfl⟩
  have hm0 : isDigitC m0 = true := hMd m0 (by simp)
  have hp0 : isDigitC p0 = true := hPd p0 (by simp)
  have hdot : isDigitC '.' = false := by decide
  have hm0w : isWS m0 = false := digit_not_ws m0 hm0
  have h1 := takeWhile_app_not isWS ws2 m0
    (ms ++ '.' :: ((n0 :: ns) ++ '.' :: ((p0 :: ps) ++ rest))) hws2w hm0w
  have h2 := dropWhile_app_not isWS ws2 m0
    (ms ++ '.' :: ((n0 :: ns) ++ '.' :: ((p0 :: ps) ++ rest))) hws2w hm0w
  have h3 := takeWhile_app_not isDigitC (m0 :: ms) '.'
    ((n0 :: ns) ++ '.' :: ((p0 :: ps) ++ rest)) hMd hdot
  have h4 := dropWhile_app_not isDigitC (m0 :: ms) '.'
    ((n0 :: ns) ++ '.' :: ((p0 :: ps) ++ rest)) hMd hdot
  have h5 := takeWhile_app_not isDigitC (n0 :: ns) '.' ((p0 :: ps) ++ rest) hNd hdot
  have h6 := dropWhile_app_not isDigitC (n0 :: ns) '.' ((p0 :: ps) ++ rest) hNd hdot
  simp only [List.cons_append] at h1 h2 h3 h4 h5 h6
  simp only [openapiValueNumeric, List.cons_append]
  simp only [h1, h2, h3, h4, h5, h6, List.head?_cons, List.tail_cons]
  simp [hws2, hp0, List.takeWhile_cons]

theorem pyStr_data (version : Version) :
    (pyStr version).data
      = (Nat.repr version.major).data ++ '.' :: ((Nat.repr version.minor).data ++ '.'
        :: ((Nat.repr version.patch).data ++ ((dashSuffix version.prerelease).data
          ++ (plusSuffix version.build).data))) := by
  simp [pyStr, String.data_append, List.append_assoc]

theorem pyStr_numeric (version : Version) :
    openapiValueNumeric (' ' :: ((pyStr version).data ++ ['\n'])) = true := by
  have h := openapiValueNumeric_triple (Nat.repr version.major).data
    (Nat.repr version.minor).data (Nat.repr version.patch).data [' ']
    ((dashSuffix version.prerelease).data ++ ((plusSuffix version.build).data ++ ['\n']))
    (natRepr_ne_nil _) (natRepr_digits _) (natRepr_ne_nil _) (natRepr_digits _)
    (natRepr_ne_nil _) (natRepr_digits _) (by simp)
    (by intro c hc; simp at hc; rw [hc]; decide)
  have heq : (' ' :: ((pyStr version).data ++ ['\n']))
      = [' '] ++ ((Nat.repr version.major).data ++ '.' :: ((Nat.repr version.minor).data ++ '.'
        :: ((Nat.repr version.patch).data ++ ((dashSuffix version.prerelease).data
          ++ ((plusSuffix version.build).data ++ ['\n']))))) := by
    rw [pyStr_data]
    simp [List.append_assoc]
  rw [heq]
  exact h

theorem openapi_match_rebuilt (version : Version) (ws : List Char)
    (hws : ∀ c ∈ ws, isWS c = true) (hne : ws ≠ []) :
    openapi_match ((String.mk (ws ++ "version".data) ++ ": " ++ pyStr version ++ "\n").data)
      = some (ws ++ "version".data) := by
  have hdata : (String.mk (ws ++ "version".data) ++ ": " ++ pyStr version ++ "\n").data
      = ws ++ ('v' :: 'e' :: 'r' :: 's' :: 'i' :: 'o' :: 'n' :: ':' :: ' '
          :: ((pyStr version).data ++ ['\n'])) := by
    simp [String.data_append, List.append_assoc]
  rw [hdata]
  have hv : isWS 'v' = false := by decide
  have h1 := takeWhile_app_not isWS ws 'v'
    ('e' :: 'r' :: 's' :: 'i' :: 'o' :: 'n' :: ':' :: ' ' :: ((pyStr version).data ++ ['\n']))
    hws hv
  have h2 := dropWhile_app_not isWS ws 'v'
    ('e' :: 'r' :: 's' :: 'i' :: 'o' :: 'n' :: ':' :: ' ' :: ((pyStr version).data ++ ['\n']))
    hws hv
  have hsp : stripPre "version:".data
      ('v' :: 'e' :: 'r' :: 's' :: 'i' :: 'o' :: 'n' :: ':' :: ' '
        :: ((pyStr version).data ++ ['\n']))
      = some (' ' :: ((pyStr version).data ++ ['\n'])) := by
    simp [stripPre]
  simp only [openapi_match, h1, h2, if_neg hne, hsp]
  rw [if_pos (pyStr_numeric version)]

theorem patchOpenapiLine_idem (version : Version) (l : String) :
    patchOpenapiLine version (patchOpenapiLine version l) = patchOpenapiLine version l := by
  cases hm : openapi_match l.data with
  | none => simp [patchOpenapiLine, hm]
  | some g1 =>
    obtain ⟨hg1, hne, -⟩ := openapi_match_some l.data g1 hm
    have hws : ∀ c ∈ l.data.takeWhile isWS, isWS c = true :=
      fun c hc => List.mem_takeWhile_imp hc
    simp only [patchOpenapiLine, hm]
    rw [hg1]
    rw [openapi_match_rebuilt version _ hws hne]

theorem patchOpenapiLine_chunkprop (version : Version)
    (h : versionLabelsNLFree version = true) (s : String)
    (hcp : EndsNL s ∨ LastChunk s) :
    patchOpenapiLine version s = s ∨ EndsNL (patchOpenapiLine version s) := by
  cases hm : openapi_match s.data with
  | none => left; simp [patchOpenapiLine, hm]
  | some g1 =>
    right
    obtain ⟨hg1, hne, hstrip⟩ := openapi_match_some s.data g1 hm
    have hwsnl : '\n' ∉ s.data.takeWhile isWS := by
      refine openapi_ws_nlfree s.data ?_ hstrip
      rcases hcp with ⟨t, ht, htnl⟩ | ⟨_, hnl⟩
      · exact Or.inl ⟨t, ht, htnl⟩
      · exact Or.inr hnl
    simp only [patchOpenapiLine, hm]
    refine ⟨(String.mk g1 ++ ": " ++ pyStr version).data, ?_, ?_⟩
    · rw [String.data_append]
    · rw [String.data_append, String.data_append]
      simp only [List.mem_append, not_or]
      refine ⟨⟨?_, by decide⟩, pyStr_nlfree version h⟩
      rw [hg1]
      simp only [List.mem_append, not_or]
      exact ⟨hwsnl, by decide⟩

/-! ## Claims -/

/-- C1: the claim says `components_from` must yield a deliberate result for
an argument naming no component — never an unintended single-element slice
of the registry.  The code computes `next(..., -1)` and slices
`COMPONENTS[-1:]`, so the unknown name `"does-not-exist"` silently yields
exactly the single-element slice holding the last registry entry (`ui`):
the code contradicts the documented intent.  This theorem evaluates the
code at the failing input. -/
theorem components_from_unknown_returns_last_slice :
    components_from (some "does-not-exist") =
      [{ name := "ui", precommit_hook := some ui_npm_update }] ∧
    (components_from (some "does-not-exist")).map (fun c => c.name) = ["ui"] := by
  decide

/-- C2 counterexample: the claim states that for every input, the line
`"  version: 1.0.0-beta\n"` is left completely unchanged by the OpenAPI
patcher.  It is not: `re.match` is an unanchored-suffix (prefix) match, so
the bare-numeric test accepts any value that merely starts with
`d+.d+.d+`, and the line is rewritten. -/
theorem openapi_beta_line_not_left_unchanged :
    update_openapi_str "  version: 1.0.0-beta\n" v110rc1 ≠ "  version: 1.0.0-beta\n" := by
  decide

/-- C2 (amended): the OpenAPI patcher replaces a line's value exactly when
the line is an indented `version:` key whose value *starts with* a
three-component numeric version; a letter or prerelease suffix after the
numeric prefix does not prevent the rewrite.  So both
`"  version: 1.0.0\n"` and `"  version: 1.0.0-beta\n"` patched with
`1.1.0-rc1` become `"  version: 1.1.0-rc1\n"` (indentation preserved),
while unindented lines or lines whose value does not start with a numeric
triple are left unchanged. -/
theorem openapi_patch_matches_numeric_prefix :
    (∀ (version : Version) (line : String),
       openapi_match line.data = none → patchOpenapiLine version line = line)
    ∧ update_openapi_str "  version: 1.0.0\n" v110rc1 = "  version: 1.1.0-rc1\n"
    ∧ update_openapi_str "  version: 1.0.0-beta\n" v110rc1 = "  version: 1.1.0-rc1\n"
    ∧ openapi_match "  version: 1.0.0-beta\n".data = some "  version".data
    ∧ openapi_match "version: 1.0.0\n".data = none
    ∧ openapi_match "  version: v1.0.0\n".data = none := by
  refine ⟨?_, by decide, by decide, by decide, by decide, by decide⟩
  intro version line h
  simp [patchOpenapiLine, h]

/-- C2 witness: the amended theorem applied at a concrete non-matching
line. -/
theorem openapi_patch_matches_numeric_prefix_witness :
    patchOpenapiLine v110rc1 "openapi: 3.0.0\n" = "openapi: 3.0.0\n" :=
  openapi_patch_matches_numeric_prefix.1 v110rc1 "openapi: 3.0.0\n" (by decide)

/-- C3 counterexample: the claim says that in every run no stage of a later
component begins before every stage of the previous component's pipeline
has completed, Validate included.  In the run over the full registry the
trace is not grouped by component: `main` runs all six `validate()` calls
first, so `identity`'s Validate stage begins before `core`'s release
stages. -/
theorem main_trace_interleaves_validations :
    groupedByOrder (COMPONENTS.map (fun c => c.name))
      (mainTrace (components_from none) v100 allMain envAll).1 = false := by
  decide

/-- C3 (amended): a run first executes every selected component's Validate
stage, in registry order, as a batch; only after all validations pass do
the release pipelines run, strictly sequentially in registry order — no
release stage of a later component begins before the previous component's
release pipeline completes.  A component's Validate stage is therefore
batched ahead of all releases, not run immediately before its own
PatchChart stage. -/
theorem main_validates_first_then_releases_in_order :
    (∀ (cs : List Component) (version : Version) (br : String → String)
       (envOf : String → ReleaseEnv),
       (∀ c ∈ cs, br c.name = "main") →
       mainTrace cs version br envOf =
         ((cs.map fun c => Event.validate c.name) ++ (releasesTrace version envOf cs).1,
          (releasesTrace version envOf cs).2))
    ∧ groupedByOrder (COMPONENTS.map (fun c => c.name))
        (releasesTrace v100 envAll (components_from none)).1 = true := by
  refine ⟨?_, by decide⟩
  intro cs version br envOf h
  simp [mainTrace, validateTrace_all_main br cs h]

/-- C3 witness: the amended theorem applied to the run over the full
registry with every checkout on `main`. -/
theorem main_validates_first_then_releases_in_order_witness :
    mainTrace (components_from none) v100 allMain envAll =
      (((components_from none).map fun c => Event.validate c.name) ++
        (releasesTrace v100 envAll (components_from none)).1,
       (releasesTrace v100 envAll (components_from none)).2) :=
  main_validates_first_then_releases_in_order.1 (components_from none) v100 allMain envAll
    (by decide)

/-- C4: the chart patcher rewrites exactly the lines matching
`^(version|appVersion):` — a matching line becomes the captured key, a
colon and space, the canonical tag and a newline — and passes every other
line through unchanged, one output line per input line in order; on
`"version: 0.0.0\nappVersion: 0.0.0\nother: x\n"` with version `1.0.0` it
yields `"version: v1.0.0\nappVersion: v1.0.0\nother: x\n"`. -/
theorem chart_patcher_line_semantics :
    (∀ (version : Version) (line : String),
       chart_match line.data = none → patchChartLine version line = line)
    ∧ (∀ (version : Version) (line key : String),
       chart_match line.data = some key →
       patchChartLine version line = key ++ ": " ++ canonical_version version ++ "\n")
    ∧ (∀ (version : Version) (lines : List String),
       update_chart_contents lines version = joinList (lines.map (patchChartLine version)) ∧
       (lines.map (patchChartLine version)).length = lines.length)
    ∧ update_chart_str "version: 0.0.0\nappVersion: 0.0.0\nother: x\n" v100
        = "version: v1.0.0\nappVersion: v1.0.0\nother: x\n" := by
  refine ⟨?_, ?_, ?_, by decide⟩
  · intro version line h
    simp [patchChartLine, h]
  · intro version line key h
    simp [patchChartLine, h]
  · intro version lines
    exact ⟨rfl, lines.length_map _⟩

/-- C4 witness: the per-line clauses applied at concrete lines. -/
theorem chart_patcher_line_semantics_witness :
    patchChartLine v100 "other: x\n" = "other: x\n" ∧
    patchChartLine v100 "version: 0.0.0\n" = "version" ++ ": " ++ canonical_version v100 ++ "\n" :=
  ⟨chart_patcher_line_semantics.1 v100 "other: x\n" (by decide),
   chart_patcher_line_semantics.2.1 v100 "version: 0.0.0\n" "version" (by decide)⟩

/-- C6: when the chart glob of a component's release matches zero or two or
more files, the release raises the discovery `RuntimeError` having
performed no action at all — in particular no branch creation, staging or
commit — and the release loop stops there, so a run reaching that
component aborts with no further action. -/
theorem chart_discovery_aborts_before_commit :
    ∀ (c : Component) (version : Version) (env : ReleaseEnv),
      env.chartMatches ≠ 1 →
      releaseTrace c version env =
        ([], some (Err.runtime ("failed to find Chart.yaml for component " ++ c.name)))
      ∧ ∀ (envOf : String → ReleaseEnv) (rest : List Component),
          envOf c.name = env →
          releasesTrace version envOf (c :: rest) =
            ([], some (Err.runtime ("failed to find Chart.yaml for component " ++ c.name))) := by
  intro c version env h
  have h1 : releaseTrace c version env =
      ([], some (Err.runtime ("failed to find Chart.yaml for component " ++ c.name))) := by
    simp [releaseTrace, h]
  refine ⟨h1, ?_⟩
  intro envOf rest he
  simp [releasesTrace, he, h1]

/-- C6 witness: a zero-match and a two-match discovery both abort the
release of `core` with the discovery error and an empty action list. -/
theorem chart_discovery_aborts_before_commit_witness :
    releaseTrace ⟨"core", [], none⟩ v100 ⟨0, 0⟩ =
      ([], some (Err.runtime ("failed to find Chart.yaml for component " ++ "core"))) ∧
    releaseTrace ⟨"core", [], none⟩ v100 ⟨2, 1⟩ =
      ([], some (Err.runtime ("failed to find Chart.yaml for component " ++ "core"))) :=
  ⟨(chart_discovery_aborts_before_commit ⟨"core", [], none⟩ v100 ⟨0, 0⟩ (by decide)).1,
   (chart_discovery_aborts_before_commit ⟨"core", [], none⟩ v100 ⟨2, 1⟩ (by decide)).1⟩

/-- C7: `components_from` with an unset argument returns the full ordered
registry unchanged, and with the name of a registered component returns
exactly the suffix of the registry starting at that component inclusive;
in particular `components_from (some "region")` is
`[region, compute, kubernetes, ui]`. -/
theorem components_from_returns_suffix :
    components_from none = COMPONENTS
    ∧ components_from (some "core") = COMPONENTS
    ∧ components_from (some "identity") = COMPONENTS.drop 1
    ∧ components_from (some "region") = COMPONENTS.drop 2
    ∧ components_from (some "compute") = COMPONENTS.drop 3
    ∧ components_from (some "kubernetes") = COMPONENTS.drop 4
    ∧ components_from (some "ui") = COMPONENTS.drop 5
    ∧ (components_from (some "region")).map (fun c => c.name)
        = ["region", "compute", "kubernetes", "ui"] := by
  decide

/-- C8: the CLI normalizer strips one optional leading `v` before semantic
version parsing, and the canonical rendering is `v{major}.{minor}.{patch}`
with `-{prerelease}` appended iff a prerelease is set:
`canonical(parse("1.2.3")) = "v1.2.3"` and
`canonical(parse("v1.2.3-rc1")) = "v1.2.3-rc1"`. -/
theorem semver_strip_and_canonical :
    (∀ s : String, pyStripV ("v" ++ s) = some s)
    ∧ ((pyStripV "1.2.3").bind parseSemver).map canonical_version = some "v1.2.3"
    ∧ ((pyStripV "v1.2.3-rc1").bind parseSemver).map canonical_version = some "v1.2.3-rc1"
    ∧ (pyStripV "1.2.3").bind parseSemver = some ⟨1, 2, 3, none, none⟩
    ∧ (pyStripV "v1.2.3-rc1").bind parseSemver = some ⟨1, 2, 3, some "rc1", none⟩ :=
  ⟨pyStripV_v, by decide, by decide, by decide, by decide⟩

/-- C9: a block run under `pushd` always leaves the process working
directory restored to its prior value — the `finally:` restore runs on
both the normal and the raising exit path — and the block itself runs in
the target directory with its outcome (value or raised error) passed
through unchanged. -/
theorem pushd_restores_previous_cwd :
    ∀ (α : Type) (directory : String) (body : String → Except Err α × String)
      (cwd : String),
      (pushd directory body cwd).2 = cwd ∧
      (pushd directory body cwd).1 = (body directory).1 :=
  fun _ _ _ _ => ⟨rfl, rfl⟩

/-- C10: a chart line matched by the patcher is emitted as exactly the
captured key, `": "`, the canonical tag and a newline — whatever followed
the key's colon in the input (old value, spacing, comments) is discarded —
and the emitted line ends in a newline even when the matched input line
was the file's final line and lacked one. -/
theorem chart_patch_discards_line_remainder :
    (∀ (version : Version) (rest : String),
       patchChartLine version ("version:" ++ rest)
         = "version: " ++ canonical_version version ++ "\n")
    ∧ (∀ (version : Version) (rest : String),
       patchChartLine version ("appVersion:" ++ rest)
         = "appVersion: " ++ canonical_version version ++ "\n")
    ∧ update_chart_str "other: x\nversion: 0.0.0" v100 = "other: x\nversion: v1.0.0\n" := by
  refine ⟨?_, ?_, by decide⟩
  · intro version rest
    simp only [patchChartLine, chart_match_version]
    rfl
  · intro version rest
    simp only [patchChartLine, chart_match_appversion]
    rfl

/-- C5: both text rewrites are idempotent.  For every whole-file input and
every version whose prerelease and build labels hold no newline character
(true of every string `semver.Version.parse` accepts), patching the patched
chart contents again — or the patched OpenAPI contents again — changes
nothing: the second pass matches exactly the lines the first pass rewrote
and rewrites them to the same text. -/
theorem patchers_idempotent :
    ∀ (s : String) (version : Version), versionLabelsNLFree version = true →
      update_chart_str (update_chart_str s version) version = update_chart_str s version ∧
      update_openapi_str (update_openapi_str s version) version = update_openapi_str s version := by
  intro s version h
  constructor
  · exact join_map_idem (patchChartLine version) (patchChartLine_idem version)
      (fun s2 _ => patchChartLine_chunkprop version h s2) s
  · exact join_map_idem (patchOpenapiLine version) (patchOpenapiLine_idem version)
      (patchOpenapiLine_chunkprop version h) s

/-- C5 witness: idempotence applied to concrete chart and OpenAPI files at
versions `1.0.0` and `1.1.0-rc1`. -/
theorem patchers_idempotent_witness :
    (update_chart_str (update_chart_str "version: 0.0.0\nother: x\n" v100) v100
      = update_chart_str "version: 0.0.0\nother: x\n" v100) ∧
    (update_openapi_str (update_openapi_str "  version: 1.0.0\n" v110rc1) v110rc1
      = update_openapi_str "  version: 1.0.0\n" v110rc1) :=
  ⟨(patchers_idempotent "version: 0.0.0\nother: x\n" v100 (by decide)).1,
   (patchers_idempotent "  version: 1.0.0\n" v110rc1 (by decide)).2⟩
